import Mathlib

/-!
Verification development for the pipeline-generator classification core
(rule detector, rule/classifier merge, zero-shot classifier adapter with
heuristic fallback, and deterministic parameter extraction).

Numbers that the JavaScript source represents as IEEE doubles are modelled
as exact rationals (`Rat`); all constants involved (0.95, 0.97, 0.8, ...)
are exactly representable in both, and the source only compares and
convexly combines them.  JavaScript objects that carry a dynamic shape
(the parameter document and the override object returned by the optional
generative model) are modelled as association lists of string keys to a
JSON value type, mirroring key order, `{...spread}` and property
assignment semantics.  Structured inputs (the features document) are
modelled as Lean structures whose `Option` fields mirror the optional
sub-objects the source guards with `|| {}` / optional chaining.
-/

/-- JSON-style dynamic value, modelling the values stored in JavaScript
objects handled by the extractor (`null` also stands for `undefined`
where the source never distinguishes the two). -/
inductive JVal where
  | jnull : JVal
  | jbool : Bool → JVal
  | jnum : Rat → JVal
  | jstr : String → JVal
  | jarr : List JVal → JVal
  | jobj : List (String × JVal) → JVal

/-- JavaScript truthiness of a value (`NaN` is not modelled; no claim
exercises it). -/
def jsTruthy : JVal → Bool
  | .jnull => false
  | .jbool b => b
  | .jnum q => !(q == 0)
  | .jstr s => !(s == "")
  | .jarr _ => true
  | .jobj _ => true

/-- Lookup of a key in a JavaScript object (first matching pair; objects
built by the modelled code keep keys unique, but the definition does not
assume it). -/
def jlookup (fields : List (String × JVal)) (k : String) : Option JVal :=
  (fields.find? (fun p => p.1 == k)).map (fun p => p.2)

/-- Property read `o[k]`, with `undefined` modelled as `jnull`. -/
def jget (fields : List (String × JVal)) (k : String) : JVal :=
  (jlookup fields k).getD .jnull

/-- JavaScript property assignment `o[k] = v`: updates the pair in place
when the key exists (keeping its position), otherwise appends. -/
def objSet (fields : List (String × JVal)) (k : String) (v : JVal) :
    List (String × JVal) :=
  if fields.any (fun p => p.1 == k) then
    fields.map (fun p => if p.1 == k then (k, v) else p)
  else fields ++ [(k, v)]

/-- Spread source `{...v}` for an arbitrary value: objects contribute
their fields, strings their indexed characters, arrays their indexed
elements, and primitives nothing — as in JavaScript. -/
def spreadSrc : JVal → List (String × JVal)
  | .jobj fs => fs
  | .jstr s => s.toList.enum.map (fun p => (toString p.1, JVal.jstr (String.singleton p.2)))
  | .jarr xs => xs.enum.map (fun p => (toString p.1, p.2))
  | _ => []

/-- Object literal `{...a, ...b}`: spread `a`, then assign every pair of
`b` left to right. -/
def spreadMerge (a b : List (String × JVal)) : List (String × JVal) :=
  b.foldl (fun acc p => objSet acc p.1 p.2) a

/-- The idiom `v || {}`: keep a truthy value, replace a falsy one by the
empty object. -/
def orEmptyObj (v : JVal) : JVal :=
  if jsTruthy v then v else .jobj []

/-- JavaScript `a || b` on strings: the empty string is falsy. -/
def jsOr (a b : String) : String :=
  if a = "" then b else a

/-- ASCII lowercasing, modelling `String.prototype.toLowerCase()` on the
ASCII file names, labels and language names the source lowercases
(implemented structurally over the character list so that concrete
inputs evaluate inside the kernel). -/
def toLowerStr (s : String) : String :=
  ⟨s.data.map Char.toLower⟩

/-- Drop leading whitespace characters. -/
def dropWS : List Char → List Char
  | [] => []
  | c :: cs => if c.isWhitespace then dropWS cs else c :: cs

/-- Whitespace trimming at both ends, modelling `String.prototype.trim()`
(structural implementation, same semantics as trimming leading and
trailing whitespace). -/
def trimStr (s : String) : String :=
  ⟨(dropWS (dropWS s.data).reverse).reverse⟩

/-- Literal substring test, modelling `text.includes(needle)`. -/
def litFront : List Char → List Char → Bool
  | [], _ => true
  | _ :: _, [] => false
  | p :: ps, c :: cs => p == c && litFront ps cs

/-- Substring search at any position (literal characters). -/
def litSearch (pat : List Char) : List Char → Bool
  | [] => litFront pat []
  | c :: cs => litFront pat (c :: cs) || litSearch pat cs

/-- String inclusion `hay.includes(needle)`. -/
def strIncludes (hay needle : String) : Bool :=
  litSearch needle.toList hay.toList

/-- `candidates.contains` on lowercased file lists and similar
`Array.prototype.includes` uses. -/
def listHas (xs : List String) (x : String) : Bool :=
  xs.contains x

-- ### FeaturesDocument model
-- Mirrors the fields the rule detector and parameter extractor read,
-- with `Option` for every sub-object / field the source accesses through
-- optional chaining or `|| default`.

/-- `build_and_dependency.node_metadata` as read by the extractor. -/
structure NodeMeta where
  nodeVersion : Option String
  scripts : Option (List (String × String))
deriving Repr

/-- `build_and_dependency.python_metadata` as read by the extractor. -/
structure PyMeta where
  has_pytest : Bool
deriving Repr

/-- `features.composition`. -/
structure CompositionDoc where
  languages : Option (List (String × Rat))
  dominant_language : Option String
  file_types_count : Option (List (String × Nat))
deriving Repr

/-- `features.build_and_dependency`. -/
structure BuildDep where
  package_managers : Option (List String)
  frameworks : Option (List String)
  node_metadata : Option NodeMeta
  python_metadata : Option PyMeta
deriving Repr

/-- `features.containerization_and_deployment`. -/
structure ContainerDeploy where
  has_dockerfile : Option Bool
  registry_reference : Option JVal

/-- `features.metadata`. -/
structure MetaInfo where
  default_branch : Option String
deriving Repr

/-- The FeaturesDocument: the immutable input of one analysis run. -/
structure Features where
  repo : Option String
  detectedFiles : Option (List String)
  file_types_count : Option (List (String × Nat))
  composition : Option CompositionDoc
  build_and_dependency : Option BuildDep
  languages : Option (List (String × Rat))
  dominant_language : Option String
  frameworks : Option (List String)
  containerization_and_deployment : Option ContainerDeploy
  metadata : Option MetaInfo

/-- The features document with every optional part absent (`{}`). -/
def Features.empty : Features :=
  ⟨none, none, none, none, none, none, none, none, none, none⟩

/-- `comp.languages || features.languages || {}` (an explicitly present
empty mapping is a truthy object and stops the chain, as in JavaScript). -/
def langsOf (f : Features) : List (String × Rat) :=
  ((f.composition.bind (fun c => c.languages)).orElse (fun _ => f.languages)).getD []

-- ### Rule Engine (utils/ruleDetector.js)

/-- A (label, confidence, reason) rule candidate. -/
structure Candidate where
  label : String
  confidence : Rat
  reason : String
deriving Repr, DecidableEq, Inhabited

/-- Evidence set of the rule detector: detected files merged with
file-type-count keys (top level) and declared package managers, all
lowercased. -/
def detFilesRD (f : Features) : List String :=
  ((f.detectedFiles.getD []) ++
    (f.file_types_count.getD []).map (fun p => p.1) ++
    ((f.build_and_dependency.bind (fun b => b.package_managers)).getD [])).map
    toLowerStr

/-- `(comp.dominant_language || features.dominant_language ||
Object.keys(languages)[0] || "").toLowerCase()`. -/
def dominantRD (f : Features) : String :=
  toLowerStr (jsOr ((f.composition.bind (fun c => c.dominant_language)).getD "")
    (jsOr (f.dominant_language.getD "")
      (jsOr (((langsOf f).head?.map (fun p => p.1)).getD "") "")))

/-- `(buildDep.frameworks || features.frameworks || []).map(toLowerCase)`. -/
def frameworksOf (f : Features) : List String :=
  (((f.build_and_dependency.bind (fun b => b.frameworks)).orElse
    (fun _ => f.frameworks)).getD []).map toLowerStr

/-- Raw rule emissions of the detector, before the generic fallback,
deduplication and sorting: file-based rules, framework rules, the
dominant-language hint chain and the polyglot rule, in source order. -/
def rawRules (f : Features) : List Candidate :=
  let detectedFiles := detFilesRD f
  let languages := langsOf f
  let dominant := dominantRD f
  let frameworks := frameworksOf f
  (if listHas detectedFiles "package.json" then
    [⟨"node", mkRat 95 100, "package.json present"⟩] else []) ++
  (if listHas detectedFiles "requirements.txt" then
    [⟨"python", mkRat 95 100, "requirements.txt present"⟩] else []) ++
  (if listHas detectedFiles "pom.xml" || listHas detectedFiles "build.gradle" ||
      listHas detectedFiles "build.gradle.kts" then
    [⟨"java", mkRat 95 100, "Java build descriptor"⟩] else []) ++
  (if listHas detectedFiles "go.mod" then
    [⟨"go", mkRat 95 100, "Go project detected"⟩] else []) ++
  (if listHas detectedFiles "main.tf" then
    [⟨"terraform", mkRat 9 10, "Terraform detected"⟩] else []) ++
  (if listHas detectedFiles "dockerfile" then
    [⟨"docker", mkRat 9 10, "Dockerfile detected"⟩] else []) ++
  (if listHas frameworks "flask" || listHas frameworks "django" then
    [⟨"python", mkRat 9 10, "Framework detected: " ++ String.intercalate ", " frameworks⟩]
   else []) ++
  (if listHas frameworks "express" then
    [⟨"node", mkRat 9 10, "Express framework"⟩] else []) ++
  (if listHas frameworks "spring" || listHas frameworks "springboot" then
    [⟨"java", mkRat 9 10, "Spring framework"⟩] else []) ++
  (if dominant ≠ "" then
    (if strIncludes dominant "javascript" then
      [⟨"node", mkRat 6 10, "dominant language hint: " ++ dominant⟩]
     else if strIncludes dominant "python" then
      [⟨"python", mkRat 6 10, "dominant language hint: " ++ dominant⟩]
     else if strIncludes dominant "java" then
      [⟨"java", mkRat 6 10, "dominant language hint: " ++ dominant⟩]
     else if strIncludes dominant "go" then
      [⟨"go", mkRat 6 10, "dominant language hint: " ++ dominant⟩]
     else [])
   else []) ++
  (if 1 < (languages.map (fun p => p.1)).length then
    [⟨"polyglot", mkRat 5 10,
      "multiple languages detected: " ++
        String.intercalate ", " (languages.map (fun p => p.1))⟩]
   else [])

/-- All raw candidates including the generic fallback pushed when no rule
fired. -/
def rawAll (f : Features) : List Candidate :=
  let raw := rawRules f
  if raw.isEmpty then [⟨"generic", mkRat 3 10, "no strong evidence"⟩] else raw

/-- One step of the dedup `Map`: `set` keeps the first-insertion position
of a label and replaces its entry only on strictly greater confidence. -/
def mapSet (m : List Candidate) (c : Candidate) : List Candidate :=
  match m.find? (fun e => e.label == c.label) with
  | none => m ++ [c]
  | some e =>
    if e.confidence < c.confidence then
      m.map (fun e2 => if e2.label == c.label then c else e2)
    else m

/-- Deduplicate by label, keeping the highest confidence entry. -/
def dedupByLabel (raw : List Candidate) : List Candidate :=
  raw.foldl mapSet []

/-- Comparator order of `sort((a, b) => b.confidence - a.confidence)`:
`a` may come before `b` when the confidence of `a` is at least that of
`b`. -/
def confGE (a b : Candidate) : Prop :=
  b.confidence ≤ a.confidence

instance : DecidableRel confGE :=
  fun a b => inferInstanceAs (Decidable (b.confidence ≤ a.confidence))

instance : IsTotal Candidate confGE :=
  ⟨fun a b => le_total b.confidence a.confidence⟩

instance : IsTrans Candidate confGE :=
  ⟨fun _ _ _ h1 h2 => le_trans h2 h1⟩

/-- Stable descending sort by confidence, modelling
`sort((a, b) => b.confidence - a.confidence)` (a stable sort under a
total comparator is unique, so insertion sort is extensionally the
JavaScript sort). -/
def sortByConfDesc (cs : List Candidate) : List Candidate :=
  cs.insertionSort confGE

/-- Output of `runRuleDetector`. -/
structure RuleDetectOut where
  candidates : List Candidate
  summary : String
  detectedFiles : List String
  languages : List (String × Rat)

/-- `runRuleDetector(features)`: raw emissions, generic fallback,
label-dedup (max confidence wins) and descending sort, plus the evidence
summary string. -/
def runRuleDetector (f : Features) : RuleDetectOut :=
  let detectedFiles := detFilesRD f
  let languages := langsOf f
  let dominant := dominantRD f
  let frameworks := frameworksOf f
  let candidates := sortByConfDesc (dedupByLabel (rawAll f))
  let summary := String.intercalate "\n"
    ["Dominant language: " ++ dominant,
     "Languages: " ++ String.intercalate ", " (languages.map (fun p => p.1)),
     "Frameworks: " ++ String.intercalate ", " frameworks,
     "Detected files: " ++ String.intercalate ", " (detectedFiles.take 10)]
  ⟨candidates, summary, detectedFiles, languages⟩

-- ### Signal Merger (utils/mergeUtils.js)

/-- The classifier result as consumed by the merger: parallel label and
score lists. -/
structure HFResult where
  labels : List String
  scores : List Rat
deriving Repr, DecidableEq

/-- A merged candidate `{label, rule, hf, combined, reasons}`. -/
structure Merged where
  label : String
  rule : Rat
  hf : Rat
  combined : Rat
  reasons : List String
deriving Repr, DecidableEq, Inhabited

/-- Output wrapper `{ merged }` of `mergeRuleAndHF`. -/
structure MergeOut where
  merged : List Merged
deriving Repr, DecidableEq

/-- Two-decimal rendering of a rational, modelling `x.toFixed(2)` for the
non-negative scores the merger formats into its reason strings. -/
def toFixed2 (q : Rat) : String :=
  let m : Int := (q * 100 + mkRat 1 2).floor
  let fp := (m % 100).natAbs
  toString (m / 100) ++ "." ++ (if fp < 10 then "0" else "") ++ toString fp

/-- Assignment into the `hfMap` object: replace in place or append. -/
def ratMapSet (m : List (String × Rat)) (k : String) (v : Rat) :
    List (String × Rat) :=
  if m.any (fun p => p.1 == k) then
    m.map (fun p => if p.1 == k then (k, v) else p)
  else m ++ [(k, v)]

/-- `hfMap` built by `forEach` over the classifier labels, each label
assigned `(scores && scores[i]) || 0`. -/
def buildHfMap (labels : List String) (scores : List Rat) :
    List (String × Rat) :=
  labels.enum.foldl (fun m p => ratMapSet m p.2 (scores.getD p.1 0)) []

/-- Comparator order of `sort((a, b) => b.combined - a.combined)`. -/
def combinedGE (a b : Merged) : Prop :=
  b.combined ≤ a.combined

instance : DecidableRel combinedGE :=
  fun a b => inferInstanceAs (Decidable (b.combined ≤ a.combined))

instance : IsTotal Merged combinedGE :=
  ⟨fun a b => le_total b.combined a.combined⟩

instance : IsTrans Merged combinedGE :=
  ⟨fun _ _ _ h1 h2 => le_trans h2 h1⟩

/-- Stable descending sort of merged candidates by combined score,
modelling `sort((a, b) => b.combined - a.combined)`. -/
def sortByCombinedDesc (ms : List Merged) : List Merged :=
  ms.insertionSort combinedGE

/-- `mergeRuleAndHF(ruleCandidates, hfResult)`: if the best rule
candidate reaches 0.97, carry every rule candidate through with its own
confidence and a zero classifier score ("rule-dominant"); otherwise
combine rule and classifier scores 0.8/0.2 over the label union. -/
def mergeRuleAndHF (ruleCandidates : List Candidate) (hfResult : HFResult) :
    MergeOut :=
  if ruleCandidates.isEmpty then ⟨[]⟩
  else
    let sortedByRule := sortByConfDesc ruleCandidates
    let top := sortedByRule.headI
    if mkRat 97 100 ≤ top.confidence then
      ⟨sortedByRule.map (fun c =>
        ⟨c.label, c.confidence, 0, c.confidence, ["rule-dominant"]⟩)⟩
    else
      let hfMap := buildHfMap hfResult.labels hfResult.scores
      let labels :=
        (ruleCandidates.map (fun c => c.label) ++ hfMap.map (fun p => p.1)).eraseDups
      let merged := sortByCombinedDesc (labels.map (fun label =>
        let rule :=
          ((ruleCandidates.find? (fun c => c.label == label)).map
            (fun c => c.confidence)).getD 0
        let hf := ((hfMap.find? (fun p => p.1 == label)).map (fun p => p.2)).getD 0
        ⟨label, rule, hf, rule * mkRat 8 10 + hf * mkRat 2 10,
         ["rule=" ++ toFixed2 rule, "hf=" ++ toFixed2 hf]⟩))
      ⟨merged⟩

/-- `chooseTemplates(merged, threshold)`: always the single top label,
"generic" when the merged list is empty (the threshold parameter is
unused in the source). -/
def chooseTemplates (merged : List Merged) (thr : Rat) : List String :=
  match thr, merged with
  | _, [] => ["generic"]
  | _, m :: _ => [m.label]

-- ### External Classifier Adapter (utils/hfclassifier.js)

/-- The fixed placeholder substituted for an empty or short summary. -/
def PLACEHOLDER : String := "Repository description for zero-shot classification."

/-- Placeholder substitution performed at the top of `classifyZeroShot`:
a falsy (empty) summary or one whose trimmed length is below 10 is
replaced before anything else happens. -/
def effectiveSummary (summaryText : String) : String :=
  if summaryText = "" ∨ (trimStr summaryText).length < 10 then PLACEHOLDER
  else summaryText

/-- Content of the classifier cache key: the source hashes the JSON of
`{summaryText, candidateLabels, model}` (after placeholder substitution);
the hash itself is modelled by the hashed content. -/
structure CacheKey where
  summaryText : String
  candidateLabels : List String
  model : String
deriving Repr, DecidableEq

/-- Cache key computed by `classifyZeroShot` for given inputs. -/
def cacheKeyOf (summaryText : String) (candidateLabels : List String)
    (model : String) : CacheKey :=
  ⟨effectiveSummary summaryText, candidateLabels, model⟩

/-- Shapes the external zero-shot call may return, as distinguished by
the normalization code: an array of `{label, score}` pairs, parallel
`{labels, scores}` arrays, or anything else (normalized to empty). -/
inductive ZSData where
  | pairs : List (String × Rat) → ZSData
  | parallel : List String → List Rat → ZSData
  | other : ZSData
deriving Repr, DecidableEq

/-- Normalization of the external response into parallel label/score
lists (unrecognized shapes yield empty lists). -/
def normalizeZS : ZSData → List String × List Rat
  | .pairs items => (items.map (fun p => p.1), items.map (fun p => p.2))
  | .parallel labels scores => (labels, scores)
  | .other => ([], [])

/-- Diagnostic payload of a classifier result: either the raw external
response, or the `{error: ...}` object attached by the heuristic
fallback. -/
inductive RawDiag where
  | fromCall : ZSData → RawDiag
  | errorTag : String → RawDiag
deriving Repr, DecidableEq

/-- The ClassifierResult record `{model, labels, scores, raw}`. -/
structure ClassifierResult where
  model : String
  labels : List String
  scores : List Rat
  raw : RawDiag
deriving Repr, DecidableEq

/-- Character match for the keyword regexes of the heuristic fallback:
`.` matches anything except a line terminator, every other character is
literal (the patterns contain no other metacharacters). -/
def patCharOk (p c : Char) : Bool :=
  if p == '.' then
    !(c == '\n' || c == '\r' || c == Char.ofNat 0x2028 || c == Char.ofNat 0x2029)
  else p == c

/-- Pattern match against the front of the text. -/
def patFront : List Char → List Char → Bool
  | [], _ => true
  | _ :: _, [] => false
  | p :: ps, c :: cs => patCharOk p c && patFront ps cs

/-- Pattern search at any position. -/
def patSearch (pat : List Char) : List Char → Bool
  | [] => patFront pat []
  | c :: cs => patFront pat (c :: cs) || patSearch pat cs

/-- `/alt1|alt2|.../.test(text)`: some alternative matches somewhere. -/
def rxAltTest (alts : List String) (text : String) : Bool :=
  alts.any (fun p => patSearch p.toList text.toList)

/-- JavaScript word character (`\w`): ASCII letter, digit or underscore. -/
def isWordChar (c : Char) : Bool :=
  c.isAlphanum || c == '_'

/-- Word-character test at a position (outside the text counts as
non-word). -/
def wordAt (t : List Char) (i : Nat) : Bool :=
  match t.get? i with
  | some c => isWordChar c
  | none => false

/-- `\b` at position `i`: word-ness changes between the previous and the
current position. -/
def boundaryAt (t : List Char) (i : Nat) : Bool :=
  (if i == 0 then false else wordAt t (i - 1)) != wordAt t i

/-- Test of `new RegExp("\\b" + escapeRegex(l) + "\\b")` against the
text: the escaped label occurs as a literal delimited by word
boundaries. -/
def wordBoundedTest (lit : String) (text : String) : Bool :=
  let t := text.toList
  let l := lit.toList
  (List.range (t.length + 1)).any (fun i =>
    ((t.drop i).take l.length == l) && boundaryAt t i &&
      boundaryAt t (i + l.length))

/-- Per-label score of the heuristic fallback: keyword matches in the
lowercased summary, capped at 1. -/
def heuristicScore (text : String) (label : String) : Rat :=
  let l := toLowerStr label
  let s0 : Rat := 0
  let s1 := if strIncludes text l then s0 + mkRat 7 10 else s0
  let s2 :=
    if l == "node" && rxAltTest ["npm", "node", "package.json", "express", "react"] text
    then s1 + mkRat 9 10 else s1
  let s3 :=
    if l == "python" &&
        rxAltTest ["python", "requirements.txt", "pip", "flask", "django", "fastapi"] text
    then s2 + mkRat 9 10 else s2
  let s4 :=
    if l == "java" && rxAltTest ["maven", "gradle", "pom.xml", "spring-boot"] text
    then s3 + mkRat 9 10 else s3
  let s5 :=
    if l == "docker" && rxAltTest ["dockerfile", "container", "docker"] text
    then s4 + mkRat 95 100 else s4
  let s6 :=
    if l == "monorepo" && rxAltTest ["packages/"] text
    then s5 + mkRat 8 10 else s5
  let s7 := if wordBoundedTest l text then s6 + mkRat 5 100 else s6
  min 1 s7

/-- Comparator order of `sort((a, b) => b.score - a.score)`. -/
def scoreGE (a b : String × Rat) : Prop :=
  b.2 ≤ a.2

instance : DecidableRel scoreGE :=
  fun a b => inferInstanceAs (Decidable (b.2 ≤ a.2))

instance : IsTotal (String × Rat) scoreGE :=
  ⟨fun a b => le_total b.2 a.2⟩

instance : IsTrans (String × Rat) scoreGE :=
  ⟨fun _ _ _ h1 h2 => le_trans h2 h1⟩

/-- Stable descending sort of (label, score) pairs by score. -/
def sortByScoreDesc (xs : List (String × Rat)) : List (String × Rat) :=
  xs.insertionSort scoreGE

/-- `heuristicLabels(summaryText, candidateLabels, err)`: keyword-scored,
score-sorted fallback result, its diagnostic payload recording the
failure reason (or "hf-missing" when no error is given). -/
def heuristicLabels (summaryText : String) (candidateLabels : List String)
    (err : Option String) : ClassifierResult :=
  let text := toLowerStr summaryText
  let labelScores :=
    sortByScoreDesc (candidateLabels.map (fun label => (label, heuristicScore text label)))
  ⟨"heuristic-fallback", labelScores.map (fun p => p.1),
   labelScores.map (fun p => p.2),
   .errorTag (match err with | some e => e | none => "hf-missing")⟩

/-- `classifyZeroShot`, with its I/O boundary made explicit: `cached` is
the content of the cache at the computed key, `hfConfigured` whether an
API token is present, and `callResult` the outcome of the external
zero-shot call (the `multi_label` option only parametrizes that call).
Control flow follows the source: placeholder substitution, cache hit,
no-token heuristic fallback, normalization of a successful call, and
heuristic fallback carrying the failure reason on a failed call. -/
def classifyZeroShot (summaryText : String) (candidateLabels : List String)
    (model : String) (cached : Option ClassifierResult)
    (hfConfigured : Bool) (callResult : Except String ZSData) :
    ClassifierResult :=
  let s := effectiveSummary summaryText
  match cached with
  | some c => c
  | none =>
    if !hfConfigured then heuristicLabels s candidateLabels none
    else
      match callResult with
      | .ok data =>
        let ls := normalizeZS data
        ⟨model, ls.1, ls.2, .fromCall data⟩
      | .error err => heuristicLabels s candidateLabels (some err)

-- ### Parameter Extractor (utils/paramExtractor.js)

/-- Evidence set of the extractor: detected files merged with
`composition.file_types_count` keys and declared package managers, all
lowercased (unlike the rule detector, the extractor reads the
file-type-count map nested under `composition`). -/
def detFilesPE (f : Features) : List String :=
  ((f.detectedFiles.getD []) ++
    ((f.composition.bind (fun c => c.file_types_count)).getD []).map (fun p => p.1) ++
    ((f.build_and_dependency.bind (fun b => b.package_managers)).getD [])).map
    toLowerStr

/-- `comp.dominant_language?.toLowerCase() ||
features?.dominant_language?.toLowerCase() ||
Object.keys(langs)[0]?.toLowerCase() || ""`. -/
def dominantPE (f : Features) : String :=
  jsOr (((f.composition.bind (fun c => c.dominant_language)).map
          toLowerStr).getD "")
    (jsOr ((f.dominant_language.map toLowerStr).getD "")
      (jsOr (((langsOf f).head?.map (fun p => toLowerStr p.1)).getD "") ""))

/-- Container indicator of the extractor: the analyzer flag, a detected
`dockerfile` entry, or a `Dockerfile` language key. -/
def hasDockerPE (f : Features) : Bool :=
  ((f.containerization_and_deployment.bind (fun c => c.has_dockerfile)).getD false) ||
  listHas (detFilesPE f) "dockerfile" ||
  (langsOf f).any (fun p => toLowerStr p.1 == "dockerfile")

/-- Truthiness of a declared package script (`scripts.lint ? ... : ...`):
present with a non-empty command. -/
def scriptTruthy (scripts : List (String × String)) (name : String) : Bool :=
  match scripts.find? (fun p => p.1 == name) with
  | some p => !(p.2 == "")
  | none => false

/-- `isNode`: chosen label or JavaScript/`package.json` hint. -/
def isNodeOf (f : Features) (chosen : List String) : Bool :=
  listHas chosen "node" ||
    (strIncludes (dominantPE f) "javascript" || listHas (detFilesPE f) "package.json")

/-- `isPython`: chosen label or Python/`requirements.txt` hint. -/
def isPythonOf (f : Features) (chosen : List String) : Bool :=
  listHas chosen "python" ||
    (strIncludes (dominantPE f) "python" || listHas (detFilesPE f) "requirements.txt")

/-- `isJava`: chosen label or a Maven/Gradle build descriptor. -/
def isJavaOf (f : Features) (chosen : List String) : Bool :=
  listHas chosen "java" ||
    (listHas (detFilesPE f) "pom.xml" || listHas (detFilesPE f) "build.gradle" ||
      listHas (detFilesPE f) "build.gradle.kts")

/-- The base ParameterDocument assembled before any branch runs: every
schema field populated with its safe default. -/
def baseDoc (f : Features) : List (String × JVal) :=
  [("project_type", .jstr "generic"),
   ("language", .jstr (jsOr (dominantPE f) "unknown")),
   ("package_manager", .jnull),
   ("lint_command", .jstr ""),
   ("test_command", .jstr ""),
   ("build_command", .jstr ""),
   ("artifact_path", .jstr ""),
   ("matrix", .jobj []),
   ("caching", .jobj []),
   ("secrets_required", .jarr []),
   ("deployment", .jobj
     [("enabled", .jbool false), ("provider", .jstr ""),
      ("config_file", .jstr ""), ("mode", .jstr "")]),
   ("container", .jobj
     [("enabled", .jbool false), ("image", .jstr ""), ("registry", .jstr ""),
      ("platforms", .jarr [.jstr "linux/amd64"]), ("cache", .jbool false),
      ("tags", .jarr []), ("provenance", .jbool false), ("sbom", .jbool false),
      ("sign", .jbool false)]),
   ("triggers", .jobj
     [("branches", .jarr
        [.jstr (jsOr ((f.metadata.bind (fun m => m.default_branch)).getD "") "main")]),
      ("push", .jbool true), ("pull_request", .jbool true),
      ("release_on_tag", .jbool true)]),
   ("paths_filters", .jobj [])]

/-- Docker-only branch: `{...base}` with docker type, build command and
an enabled ghcr.io container spec. -/
def dockerOnlyOut (base : List (String × JVal)) : List (String × JVal) :=
  let out := base
  let out := objSet out "project_type" (.jstr "docker")
  let out := objSet out "language" (.jstr "docker")
  let out := objSet out "build_command" (.jstr "docker build -t app .")
  let out := objSet out "test_command" (.jstr "")
  let cont := spreadSrc (jget out "container")
  let cont := objSet cont "enabled" (.jbool true)
  let cont := objSet cont "image" (.jstr "ghcr.io/OWNER/REPO")
  let cont := objSet cont "registry" (.jstr "ghcr.io")
  let cont := objSet cont "platforms" (.jarr [.jstr "linux/amd64"])
  let cont := objSet cont "cache" (.jbool true)
  let cont := objSet cont "tags" (.jarr [.jstr "latest"])
  objSet out "container" (.jobj cont)

/-- Registry selection of the node branch: the source inspects
`registry_reference` but yields "docker.io" on every path. -/
def detectedRegistryOf (f : Features) : String :=
  let rr := ((f.containerization_and_deployment.bind
    (fun c => c.registry_reference)).getD .jnull)
  if jsTruthy rr then
    (match rr with
     | .jbool true => "docker.io"
     | _ => "docker.io")
  else "docker.io"

/-- Node branch: npm defaults, real scripts preferred over echo-and-continue
fallbacks, fixed version matrix and npm cache, and — when a container
indicator is present — an enabled docker.io container spec with the
Docker Hub secret pair. -/
def nodeOut (f : Features) (base : List (String × JVal)) : List (String × JVal) :=
  let nodeMeta :=
    ((f.build_and_dependency.bind (fun b => b.node_metadata)).getD ⟨none, none⟩)
  let scripts := nodeMeta.scripts.getD []
  let out := base
  let out := objSet out "project_type" (.jstr "node")
  let out := objSet out "language" (.jstr "js")
  let out := objSet out "package_manager" (.jstr "npm")
  let out := objSet out "node_version" (.jstr (jsOr (nodeMeta.nodeVersion.getD "") "18.x"))
  let out := objSet out "lint_command" (.jstr
    (if scriptTruthy scripts "lint" then "npm run lint"
     else "npm run lint || echo \x27No lint script\x27"))
  let out := objSet out "test_command" (.jstr
    (if scriptTruthy scripts "test" then "npm test"
     else "npm test || echo \x27No tests found\x27"))
  let out := objSet out "build_command" (.jstr
    (if scriptTruthy scripts "build" then "npm run build"
     else "npm run build || echo \x27No build script\x27"))
  let out := objSet out "artifact_path" (.jstr
    (if scriptTruthy scripts "build" then "dist/" else ""))
  let out := objSet out "matrix" (.jobj
    [("node_versions", .jarr [.jstr "16.x", .jstr "18.x", .jstr "20.x"])])
  let out := objSet out "caching" (.jobj
    [("paths", .jarr [.jstr "~/.npm"]),
     ("key", .jstr "npm-cache-$\x7b\x7b hashFiles(\x27**/package-lock.json\x27) \x7d\x7d")])
  if hasDockerPE f then
    let detectedRegistry := detectedRegistryOf f
    let repoId := jsOr (f.repo.getD "") "OWNER/REPO"
    let cont := spreadSrc (jget out "container")
    let cont := objSet cont "enabled" (.jbool true)
    let cont := objSet cont "image" (.jstr (detectedRegistry ++ "/" ++ repoId))
    let cont := objSet cont "registry" (.jstr detectedRegistry)
    let cont := objSet cont "platforms" (.jarr [.jstr "linux/amd64"])
    let cont := objSet cont "cache" (.jbool true)
    let out := objSet out "container" (.jobj cont)
    let prevSecrets :=
      match jget out "secrets_required" with
      | .jarr xs => xs
      | _ => []
    let out :=
      if strIncludes detectedRegistry "ghcr.io" then
        objSet out "secrets_required" (.jarr (prevSecrets ++ [.jstr "GITHUB_TOKEN"]))
      else
        objSet out "secrets_required"
          (.jarr (prevSecrets ++ [.jstr "DOCKER_USERNAME", .jstr "DOCKER_PASSWORD"]))
    out
  else out

/-- Python branch: pip defaults with flake8/pytest echo-and-continue
fallbacks, fixed version matrix and pip cache. -/
def pythonOut (f : Features) (base : List (String × JVal)) : List (String × JVal) :=
  let pythonMeta :=
    ((f.build_and_dependency.bind (fun b => b.python_metadata)).getD ⟨false⟩)
  let out := base
  let out := objSet out "project_type" (.jstr "python")
  let out := objSet out "language" (.jstr "py")
  let out := objSet out "package_manager" (.jstr "pip")
  let out := objSet out "lint_command" (.jstr "flake8 . || echo \x27No flake8 config\x27")
  let out := objSet out "test_command" (.jstr
    (if pythonMeta.has_pytest then "pytest" else "pytest || python -m unittest"))
  let out := objSet out "build_command" (.jstr "python -m build || python setup.py sdist")
  let out := objSet out "artifact_path" (.jstr "dist/")
  let out := objSet out "matrix" (.jobj
    [("python_versions", .jarr [.jstr "3.9", .jstr "3.10", .jstr "3.11"])])
  objSet out "caching" (.jobj
    [("paths", .jarr [.jstr "~/.cache/pip"]),
     ("key", .jstr "pip-cache-$\x7b\x7b hashFiles(\x27**/requirements.txt\x27) \x7d\x7d")])

/-- Java branch: maven/gradle commands by descriptor, artifact path by
build tool. -/
def javaOut (f : Features) (base : List (String × JVal)) : List (String × JVal) :=
  let detectedFiles := detFilesPE f
  let hasPom := listHas detectedFiles "pom.xml"
  let hasGradle :=
    listHas detectedFiles "build.gradle" || listHas detectedFiles "build.gradle.kts"
  let out := base
  let out := objSet out "project_type" (.jstr "java")
  let out := objSet out "language" (.jstr "java")
  let out := objSet out "package_manager"
    (if hasPom then .jstr "maven" else if hasGradle then .jstr "gradle" else .jnull)
  let out := objSet out "build_command" (.jstr
    (if hasPom then "mvn -B -DskipTests package"
     else if hasGradle then "./gradlew build --no-daemon -x test"
     else "javac -d out $(find src -name \x27*.java\x27 2>/dev/null)"))
  let out := objSet out "test_command" (.jstr
    (if hasPom then "mvn test" else if hasGradle then "./gradlew test" else ""))
  objSet out "artifact_path" (.jstr
    (if hasPom then "target/" else if hasGradle then "build/" else ""))

/-- `deterministicFallback(features, chosenTemplates)`: the deterministic
phase of the extractor.  Branch order: docker-only short circuit (only
when no language ecosystem is chosen or hinted), then Node, Python,
Java, then the generic base. -/
def deterministicFallback (f : Features) (chosen : List String) :
    List (String × JVal) :=
  let base := baseDoc f
  let isNode := isNodeOf f chosen
  let isPython := isPythonOf f chosen
  let isJava := isJavaOf f chosen
  let isDockerChosen := listHas chosen "docker"
  if isDockerChosen && !isNode && !isPython && !isJava then dockerOnlyOut base
  else if isNode then nodeOut f base
  else if isPython then pythonOut f base
  else if isJava then javaOut f base
  else base

/-- Override merge of `adaptiveExtract`: `{...base, ...parsed,
container: {...base.container, ...(parsed.container || {})},
triggers: {...base.triggers, ...(parsed.triggers || {})}}`. -/
def overrideMerge (base parsed : List (String × JVal)) : List (String × JVal) :=
  let containerV := JVal.jobj
    (spreadMerge (spreadSrc (jget base "container"))
      (spreadSrc (orEmptyObj (jget parsed "container"))))
  let triggersV := JVal.jobj
    (spreadMerge (spreadSrc (jget base "triggers"))
      (spreadSrc (orEmptyObj (jget parsed "triggers"))))
  objSet (objSet (spreadMerge base parsed) "container" containerV)
    "triggers" triggersV

/-- Outcome of the optional generative-model phase, abstracting the
external text-generation call, the first-JSON-object extraction and
`JSON.parse`: `none` when no credential/model is configured, `error`
when the call or the parse fails, `ok` with the parsed override object
on success. -/
def LlmOutcome : Type := Option (Except String (List (String × JVal)))

/-- `adaptiveExtract(features, mergedSuggestion)`: deterministic base,
returned as is when the generative model is unconfigured or fails,
otherwise merged with the parsed override. -/
def adaptiveExtract (f : Features) (chosen : List String)
    (llm : LlmOutcome) : List (String × JVal) :=
  let base := deterministicFallback f chosen
  match llm with
  | none => base
  | some (.error _) => base
  | some (.ok parsed) => overrideMerge base parsed

-- ### Lookup lemmas for the object model

theorem find?_mapset_self (m : List (String × JVal)) (k : String) (v : JVal)
    (h : m.any (fun p => p.1 == k) = true) :
    (m.map (fun p => if p.1 == k then (k, v) else p)).find? (fun p => p.1 == k)
      = some (k, v) := by
  induction m with
  | nil => simp at h
  | cons p rest ih =>
    by_cases hp : (p.1 == k) = true
    · simp [hp, List.find?]
    · simp only [List.any_cons, Bool.or_eq_true] at h
      rcases h with h | h
      · exact absurd h hp
      · simp only [List.map_cons, Bool.not_eq_true] at *
        rw [if_neg (by simp [hp])]
        rw [List.find?_cons_of_neg _ (by simp [hp])]
        exact ih h

theorem find?_mapset_ne (m : List (String × JVal)) (k : String) (v : JVal)
    (k' : String) (hne : (k == k') = false) :
    (m.map (fun p => if p.1 == k then (k, v) else p)).find? (fun p => p.1 == k')
      = m.find? (fun p => p.1 == k') := by
  induction m with
  | nil => simp
  | cons p rest ih =>
    by_cases hp : (p.1 == k) = true
    · have hpk : p.1 = k := by simpa using hp
      have hpk' : (p.1 == k') = false := by simp [hpk, hne]
      simp only [List.map_cons, if_pos hp]
      rw [List.find?_cons_of_neg _ (by simpa using hne),
        List.find?_cons_of_neg _ (by simpa using hpk')]
      exact ih
    · simp only [List.map_cons, if_neg hp]
      by_cases hk' : (p.1 == k') = true
      · simp [List.find?_cons, hk']
      · simp only [List.find?_cons, hk', cond_false]
        exact ih

theorem jlookup_objSet_self (m : List (String × JVal)) (k : String) (v : JVal) :
    jlookup (objSet m k v) k = some v := by
  unfold objSet jlookup
  by_cases h : m.any (fun p => p.1 == k) = true
  · rw [if_pos h, find?_mapset_self m k v h]
    rfl
  · rw [if_neg h, List.find?_append]
    have hnone : m.find? (fun p => p.1 == k) = none := by
      rw [List.find?_eq_none]
      intro x hx hxk
      exact h (List.any_of_mem hx hxk)
    simp [hnone]

theorem jlookup_objSet_ne (m : List (String × JVal)) (k : String) (v : JVal)
    (k' : String) (hne : k' ≠ k) :
    jlookup (objSet m k v) k' = jlookup m k' := by
  have hbeq : (k == k') = false := by
    simp [beq_iff_eq]
    exact fun h => hne h.symm
  unfold objSet jlookup
  by_cases h : m.any (fun p => p.1 == k) = true
  · rw [if_pos h, find?_mapset_ne m k v k' hbeq]
  · rw [if_neg h, List.find?_append]
    have : List.find? (fun p => p.1 == k') [(k, v)] = none := by
      simp [List.find?, hbeq]
    simp [this]

theorem jlookup_objSet_isSome (m : List (String × JVal)) (k : String) (v : JVal)
    (k' : String) (h : (jlookup m k').isSome = true) :
    (jlookup (objSet m k v) k').isSome = true := by
  by_cases hk : k' = k
  · subst hk; rw [jlookup_objSet_self]; rfl
  · rw [jlookup_objSet_ne m k v k' hk]; exact h

theorem jlookup_spreadMerge_none (b : List (String × JVal)) (a : List (String × JVal))
    (k : String) (h : jlookup b k = none) :
    jlookup (spreadMerge a b) k = jlookup a k := by
  induction b generalizing a with
  | nil => rfl
  | cons p rest ih =>
    unfold jlookup at h
    rw [Option.map_eq_none', List.find?_eq_none] at h
    have hpk : ¬((p.1 == k) = true) := h p (by simp)
    have hrest : jlookup rest k = none := by
      unfold jlookup
      rw [Option.map_eq_none', List.find?_eq_none]
      exact fun x hx => h x (by simp [hx])
    have hne : k ≠ p.1 := by
      intro he
      exact hpk (by subst he; simp)
    show jlookup (spreadMerge (objSet a p.1 p.2) rest) k = jlookup a k
    rw [ih (objSet a p.1 p.2) hrest, jlookup_objSet_ne a p.1 p.2 k hne]

theorem jlookup_spreadMerge_isSome (b : List (String × JVal))
    (a : List (String × JVal)) (k : String)
    (h : (jlookup a k).isSome = true) :
    (jlookup (spreadMerge a b) k).isSome = true := by
  induction b generalizing a with
  | nil => exact h
  | cons p rest ih =>
    exact ih (objSet a p.1 p.2) (jlookup_objSet_isSome a p.1 p.2 k h)

-- ### Structural completeness of the deterministic extractor (C2 support)

theorem detectedRegistryOf_eq (f : Features) : detectedRegistryOf f = "docker.io" := by
  unfold detectedRegistryOf
  dsimp only
  split
  · split <;> rfl
  · rfl

theorem jlookup_isSome_dockerOnlyOut (base : List (String × JVal)) (k : String)
    (h : (jlookup base k).isSome = true) :
    (jlookup (dockerOnlyOut base) k).isSome = true := by
  unfold dockerOnlyOut
  apply jlookup_objSet_isSome
  apply jlookup_objSet_isSome
  apply jlookup_objSet_isSome
  apply jlookup_objSet_isSome
  apply jlookup_objSet_isSome
  exact h

theorem jlookup_isSome_nodeOut (f : Features) (base : List (String × JVal))
    (k : String) (h : (jlookup base k).isSome = true) :
    (jlookup (nodeOut f base) k).isSome = true := by
  unfold nodeOut
  dsimp only
  split
  · split
    · repeat apply jlookup_objSet_isSome
      exact h
    · repeat apply jlookup_objSet_isSome
      exact h
  · repeat apply jlookup_objSet_isSome
    exact h

theorem jlookup_isSome_pythonOut (f : Features) (base : List (String × JVal))
    (k : String) (h : (jlookup base k).isSome = true) :
    (jlookup (pythonOut f base) k).isSome = true := by
  unfold pythonOut
  repeat apply jlookup_objSet_isSome
  exact h

theorem jlookup_isSome_javaOut (f : Features) (base : List (String × JVal))
    (k : String) (h : (jlookup base k).isSome = true) :
    (jlookup (javaOut f base) k).isSome = true := by
  unfold javaOut
  repeat apply jlookup_objSet_isSome
  exact h

theorem jlookup_isSome_deterministicFallback (f : Features) (chosen : List String)
    (k : String) (h : (jlookup (baseDoc f) k).isSome = true) :
    (jlookup (deterministicFallback f chosen) k).isSome = true := by
  unfold deterministicFallback
  dsimp only
  split
  · exact jlookup_isSome_dockerOnlyOut _ k h
  · split
    · exact jlookup_isSome_nodeOut f _ k h
    · split
      · exact jlookup_isSome_pythonOut f _ k h
      · split
        · exact jlookup_isSome_javaOut f _ k h
        · exact h

/-- The field names of the ParameterDocument schema. -/
def schemaKeys : List String :=
  ["project_type", "language", "package_manager", "lint_command", "test_command",
   "build_command", "artifact_path", "matrix", "caching", "secrets_required",
   "deployment", "container", "triggers", "paths_filters"]

theorem jlookup_isSome_baseDoc (f : Features) :
    ∀ k ∈ schemaKeys, (jlookup (baseDoc f) k).isSome = true := by
  intro k hk
  fin_cases hk <;> rfl

/-- C2: for every FeaturesDocument and every merge signal, when no
external generative model is configured or the external call fails,
`adaptiveExtract` returns a structurally complete ParameterDocument:
every field of the schema (project_type, language, package_manager,
lint/test/build commands, artifact_path, matrix, caching,
secrets_required, deployment, container, triggers, paths_filters) is
present with a value. -/
theorem adaptiveExtract_fallback_total (f : Features) (chosen : List String)
    (llm : LlmOutcome)
    (hfail : llm = none ∨ ∃ e, llm = some (Except.error e)) :
    ∀ k ∈ schemaKeys, (jlookup (adaptiveExtract f chosen llm) k).isSome = true := by
  intro k hk
  have hbase : (jlookup (deterministicFallback f chosen) k).isSome = true :=
    jlookup_isSome_deterministicFallback f chosen k (jlookup_isSome_baseDoc f k hk)
  rcases hfail with rfl | ⟨e, rfl⟩
  · exact hbase
  · exact hbase

/-- C2 witness: the empty features document with no override model
configured yields a document carrying every schema field. -/
theorem adaptiveExtract_fallback_total_witness :
    ((none : LlmOutcome) = none ∨ ∃ e, (none : LlmOutcome) = some (Except.error e)) ∧
    ∀ k ∈ schemaKeys,
      (jlookup (adaptiveExtract Features.empty [] none) k).isSome = true :=
  ⟨Or.inl rfl, adaptiveExtract_fallback_total Features.empty [] none (Or.inl rfl)⟩

-- ### Override-merge frame properties (C8 support)

theorem overrideMerge_container_eq (base parsed : List (String × JVal)) :
    jget (overrideMerge base parsed) "container"
      = JVal.jobj (spreadMerge (spreadSrc (jget base "container"))
          (spreadSrc (orEmptyObj (jget parsed "container")))) := by
  unfold overrideMerge
  dsimp only
  unfold jget
  rw [jlookup_objSet_ne _ _ _ "container" (by decide), jlookup_objSet_self]
  rfl

theorem overrideMerge_triggers_eq (base parsed : List (String × JVal)) :
    jget (overrideMerge base parsed) "triggers"
      = JVal.jobj (spreadMerge (spreadSrc (jget base "triggers"))
          (spreadSrc (orEmptyObj (jget parsed "triggers")))) := by
  unfold overrideMerge
  dsimp only
  unfold jget
  rw [jlookup_objSet_self]
  rfl

/-- C8: in the override-merge step of `adaptiveExtract`, every top-level
key the override omits keeps its base value, a `container`/`triggers`
sub-object omitted by the override stays the base sub-object, and within
`container` and `triggers` every sub-key the override omits keeps its
base value (nested dictionary-union, not full overwrite). -/
theorem adaptiveExtract_overrideMerge_frame (base parsed : List (String × JVal)) :
    (∀ k, jlookup parsed k = none → k ≠ "container" → k ≠ "triggers" →
       jlookup (overrideMerge base parsed) k = jlookup base k) ∧
    (∀ cf, jget base "container" = JVal.jobj cf → jlookup parsed "container" = none →
       jget (overrideMerge base parsed) "container" = JVal.jobj cf) ∧
    (∀ tf, jget base "triggers" = JVal.jobj tf → jlookup parsed "triggers" = none →
       jget (overrideMerge base parsed) "triggers" = JVal.jobj tf) ∧
    (∀ cf pc, jget base "container" = JVal.jobj cf →
       jget parsed "container" = JVal.jobj pc →
       ∀ sk, jlookup pc sk = none →
         ∃ rf, jget (overrideMerge base parsed) "container" = JVal.jobj rf ∧
           jlookup rf sk = jlookup cf sk) ∧
    (∀ tf pt, jget base "triggers" = JVal.jobj tf →
       jget parsed "triggers" = JVal.jobj pt →
       ∀ sk, jlookup pt sk = none →
         ∃ rf, jget (overrideMerge base parsed) "triggers" = JVal.jobj rf ∧
           jlookup rf sk = jlookup tf sk) := by
  refine ⟨?_, ?_, ?_, ?_, ?_⟩
  · intro k hk hkc hkt
    unfold overrideMerge
    dsimp only
    rw [jlookup_objSet_ne _ _ _ k hkt, jlookup_objSet_ne _ _ _ k hkc]
    exact jlookup_spreadMerge_none parsed base k hk
  · intro cf hcf hnone
    rw [overrideMerge_container_eq, hcf]
    have : jget parsed "container" = JVal.jnull := by
      unfold jget; rw [hnone]; rfl
    rw [this]
    rfl
  · intro tf htf hnone
    rw [overrideMerge_triggers_eq, htf]
    have : jget parsed "triggers" = JVal.jnull := by
      unfold jget; rw [hnone]; rfl
    rw [this]
    rfl
  · intro cf pc hcf hpc sk hsk
    refine ⟨spreadMerge cf pc, ?_, ?_⟩
    · rw [overrideMerge_container_eq, hcf, hpc]
      rfl
    · exact jlookup_spreadMerge_none pc cf sk hsk
  · intro tf pt htf hpt sk hsk
    refine ⟨spreadMerge tf pt, ?_, ?_⟩
    · rw [overrideMerge_triggers_eq, htf, hpt]
      rfl
    · exact jlookup_spreadMerge_none pt tf sk hsk

/-- C8 witness: a concrete override that sets `language` and
`container.enabled` leaves `lint_command`, the omitted `triggers`
sub-object and `container.image` at their base values. -/
theorem adaptiveExtract_overrideMerge_frame_witness :
    jlookup [("language", JVal.jstr "py"),
      ("container", JVal.jobj [("enabled", JVal.jbool true)])] "lint_command" = none ∧
    jlookup (overrideMerge (baseDoc Features.empty)
        [("language", JVal.jstr "py"),
         ("container", JVal.jobj [("enabled", JVal.jbool true)])]) "lint_command"
      = jlookup (baseDoc Features.empty) "lint_command" ∧
    (∃ rf, jget (overrideMerge (baseDoc Features.empty)
        [("language", JVal.jstr "py"),
         ("container", JVal.jobj [("enabled", JVal.jbool true)])]) "container"
        = JVal.jobj rf ∧
      jlookup rf "image"
        = jlookup [("enabled", JVal.jbool false), ("image", JVal.jstr ""),
            ("registry", JVal.jstr ""), ("platforms", JVal.jarr [JVal.jstr "linux/amd64"]),
            ("cache", JVal.jbool false), ("tags", JVal.jarr []),
            ("provenance", JVal.jbool false), ("sbom", JVal.jbool false),
            ("sign", JVal.jbool false)] "image") := by
  refine ⟨rfl, ?_, ?_⟩
  · exact (adaptiveExtract_overrideMerge_frame (baseDoc Features.empty)
      [("language", JVal.jstr "py"),
       ("container", JVal.jobj [("enabled", JVal.jbool true)])]).1
      "lint_command" rfl (by decide) (by decide)
  · exact (adaptiveExtract_overrideMerge_frame (baseDoc Features.empty)
      [("language", JVal.jstr "py"),
       ("container", JVal.jobj [("enabled", JVal.jbool true)])]).2.2.2.1
      _ [("enabled", JVal.jbool true)] rfl rfl "image" rfl

-- ### Branch-value lemmas of the deterministic extractor (C3 support)

theorem jget_dockerOnlyOut_project_type (base : List (String × JVal)) :
    jget (dockerOnlyOut base) "project_type" = JVal.jstr "docker" := by
  unfold dockerOnlyOut
  dsimp only
  unfold jget
  simp [jlookup_objSet_ne, jlookup_objSet_self]

theorem jget_nodeOut_project_type (f : Features) (base : List (String × JVal)) :
    jget (nodeOut f base) "project_type" = JVal.jstr "node" := by
  unfold nodeOut
  dsimp only
  unfold jget
  split
  · split <;> simp [jlookup_objSet_ne, jlookup_objSet_self]
  · simp [jlookup_objSet_ne, jlookup_objSet_self]

theorem jget_pythonOut_project_type (f : Features) (base : List (String × JVal)) :
    jget (pythonOut f base) "project_type" = JVal.jstr "python" := by
  unfold pythonOut
  dsimp only
  unfold jget
  simp [jlookup_objSet_ne, jlookup_objSet_self]

theorem jget_javaOut_project_type (f : Features) (base : List (String × JVal)) :
    jget (javaOut f base) "project_type" = JVal.jstr "java" := by
  unfold javaOut
  dsimp only
  unfold jget
  simp [jlookup_objSet_ne, jlookup_objSet_self]

theorem nodeOut_container_docker (f : Features) (base : List (String × JVal))
    (hd : hasDockerPE f = true) :
    ∃ rf, jget (nodeOut f base) "container" = JVal.jobj rf ∧
      jget rf "enabled" = JVal.jbool true := by
  unfold nodeOut
  dsimp only
  split
  case isFalse h => exact absurd hd h
  case isTrue h =>
    split <;>
    · apply Exists.intro
      constructor
      · unfold jget
        rw [jlookup_objSet_ne _ _ _ "container" (by decide), jlookup_objSet_self]
        rfl
      · unfold jget
        simp [jlookup_objSet_ne, jlookup_objSet_self]

theorem nodeOut_secrets_docker (f : Features) (base : List (String × JVal))
    (hd : hasDockerPE f = true)
    (hbase : jlookup base "secrets_required" = some (JVal.jarr [])) :
    jget (nodeOut f base) "secrets_required"
      = JVal.jarr [JVal.jstr "DOCKER_USERNAME", JVal.jstr "DOCKER_PASSWORD"] := by
  unfold nodeOut
  dsimp only
  split
  case isFalse h => exact absurd hd h
  case isTrue h =>
    rw [detectedRegistryOf_eq]
    rw [if_neg (by decide : ¬(strIncludes "docker.io" "ghcr.io" = true))]
    unfold jget
    simp [jlookup_objSet_ne, jlookup_objSet_self, hbase]

/-- C3 (amended): the docker-only branch of the deterministic extractor
is taken only when "docker" is among the chosen labels and no language
ecosystem (node, python, java) is chosen or hinted; and when the Node
ecosystem is detected together with container indicators the document
keeps project_type "node" while the container spec is enabled and the
Docker Hub secret pair is required.  (The Python and Java branches do
not enable the container spec; see the counterexample.) -/
theorem deterministicFallback_docker_policy (f : Features) (chosen : List String) :
    (jget (deterministicFallback f chosen) "project_type" = JVal.jstr "docker" →
      listHas chosen "docker" = true ∧ isNodeOf f chosen = false ∧
      isPythonOf f chosen = false ∧ isJavaOf f chosen = false) ∧
    (isNodeOf f chosen = true → hasDockerPE f = true →
      jget (deterministicFallback f chosen) "project_type" = JVal.jstr "node" ∧
      (∃ rf, jget (deterministicFallback f chosen) "container" = JVal.jobj rf ∧
        jget rf "enabled" = JVal.jbool true) ∧
      jget (deterministicFallback f chosen) "secrets_required"
        = JVal.jarr [JVal.jstr "DOCKER_USERNAME", JVal.jstr "DOCKER_PASSWORD"]) := by
  constructor
  · intro h
    unfold deterministicFallback at h
    dsimp only at h
    split at h
    case isTrue hc =>
      simp only [Bool.and_eq_true, Bool.not_eq_true'] at hc
      exact ⟨hc.1.1.1, hc.1.1.2, hc.1.2, hc.2⟩
    case isFalse hc =>
      split at h
      case isTrue hn =>
        rw [jget_nodeOut_project_type] at h
        exact absurd h (by simp)
      case isFalse hn =>
        split at h
        case isTrue hp =>
          rw [jget_pythonOut_project_type] at h
          exact absurd h (by simp)
        case isFalse hp =>
          split at h
          case isTrue hj =>
            rw [jget_javaOut_project_type] at h
            exact absurd h (by simp)
          case isFalse hj =>
            exact absurd (show JVal.jstr "generic" = JVal.jstr "docker" from h) (by simp)
  · intro hn hd
    have hbranch : deterministicFallback f chosen = nodeOut f (baseDoc f) := by
      unfold deterministicFallback
      dsimp only
      rw [hn]
      rw [if_neg (by simp)]
      rw [if_pos rfl]
    rw [hbranch]
    exact ⟨jget_nodeOut_project_type f (baseDoc f),
      nodeOut_container_docker f (baseDoc f) hd,
      nodeOut_secrets_docker f (baseDoc f) hd rfl⟩

/-- C3 counterexample: a FeaturesDocument with `requirements.txt` and a
`Dockerfile` (a Python ecosystem detected together with container
indicators) yields project_type "python" but leaves the container spec
disabled and the secrets list empty, contradicting the claim that any
detected language ecosystem plus container indicators enables the
container spec with a non-empty secrets_required list. -/
theorem deterministicFallback_pythonDocker_counterexample :
    isPythonOf { Features.empty with
        detectedFiles := some ["requirements.txt", "Dockerfile"] }
      ["python", "docker"] = true ∧
    hasDockerPE { Features.empty with
        detectedFiles := some ["requirements.txt", "Dockerfile"] } = true ∧
    jget (deterministicFallback { Features.empty with
        detectedFiles := some ["requirements.txt", "Dockerfile"] }
        ["python", "docker"]) "project_type" = JVal.jstr "python" ∧
    (∀ rf, jget (deterministicFallback { Features.empty with
        detectedFiles := some ["requirements.txt", "Dockerfile"] }
        ["python", "docker"]) "container" = JVal.jobj rf →
      jget rf "enabled" = JVal.jbool false) ∧
    jget (deterministicFallback { Features.empty with
        detectedFiles := some ["requirements.txt", "Dockerfile"] }
        ["python", "docker"]) "secrets_required" = JVal.jarr [] := by
  refine ⟨by decide, by decide, rfl, ?_, rfl⟩
  intro rf hrf
  have : rf = [("enabled", JVal.jbool false), ("image", JVal.jstr ""),
      ("registry", JVal.jstr ""), ("platforms", JVal.jarr [JVal.jstr "linux/amd64"]),
      ("cache", JVal.jbool false), ("tags", JVal.jarr []),
      ("provenance", JVal.jbool false), ("sbom", JVal.jbool false),
      ("sign", JVal.jbool false)] := by
    have heq : jget (deterministicFallback { Features.empty with
        detectedFiles := some ["requirements.txt", "Dockerfile"] }
        ["python", "docker"]) "container"
        = JVal.jobj [("enabled", JVal.jbool false), ("image", JVal.jstr ""),
            ("registry", JVal.jstr ""), ("platforms", JVal.jarr [JVal.jstr "linux/amd64"]),
            ("cache", JVal.jbool false), ("tags", JVal.jarr []),
            ("provenance", JVal.jbool false), ("sbom", JVal.jbool false),
            ("sign", JVal.jbool false)] := rfl
    rw [heq] at hrf
    injection hrf.symm
  rw [this]
  rfl

/-- C3 witness: a FeaturesDocument with `package.json` and a `Dockerfile`
takes the node branch with an enabled container spec and the Docker Hub
secret pair. -/
theorem deterministicFallback_docker_policy_witness :
    isNodeOf { Features.empty with
        detectedFiles := some ["package.json", "Dockerfile"] } ["node"] = true ∧
    hasDockerPE { Features.empty with
        detectedFiles := some ["package.json", "Dockerfile"] } = true ∧
    (jget (deterministicFallback { Features.empty with
        detectedFiles := some ["package.json", "Dockerfile"] } ["node"])
        "project_type" = JVal.jstr "node" ∧
      (∃ rf, jget (deterministicFallback { Features.empty with
          detectedFiles := some ["package.json", "Dockerfile"] } ["node"])
          "container" = JVal.jobj rf ∧ jget rf "enabled" = JVal.jbool true) ∧
      jget (deterministicFallback { Features.empty with
          detectedFiles := some ["package.json", "Dockerfile"] } ["node"])
          "secrets_required"
        = JVal.jarr [JVal.jstr "DOCKER_USERNAME", JVal.jstr "DOCKER_PASSWORD"]) :=
  ⟨by decide, by decide,
    (deterministicFallback_docker_policy { Features.empty with
        detectedFiles := some ["package.json", "Dockerfile"] } ["node"]).2
      (by decide) (by decide)⟩

/-- C6 (amended): the rule for "java build descriptor present" emits the
java candidate at confidence 0.95 whenever pom.xml, build.gradle or
build.gradle.kts is detected, independently of whether a Node indicator
(package.json) is also present — no co-occurrence disambiguation lowers
it. -/
theorem javaRule_confidence_fixed (f : Features)
    (h : listHas (detFilesRD f) "pom.xml" = true ∨
      listHas (detFilesRD f) "build.gradle" = true ∨
      listHas (detFilesRD f) "build.gradle.kts" = true) :
    (⟨"java", mkRat 95 100, "Java build descriptor"⟩ : Candidate) ∈ rawRules f := by
  have hcond : (listHas (detFilesRD f) "pom.xml" ||
      listHas (detFilesRD f) "build.gradle" ||
      listHas (detFilesRD f) "build.gradle.kts") = true := by
    rcases h with h | h | h <;> simp [h]
  unfold rawRules
  dsimp only
  simp only [List.mem_append]
  refine Or.inl (Or.inl (Or.inl (Or.inl (Or.inl (Or.inl (Or.inl (Or.inl (Or.inr ?_))))))))
  rw [if_pos hcond]
  exact List.mem_singleton.mpr rfl

/-- C6 counterexample: with a Node indicator present (package.json
alongside pom.xml) the java emission still carries confidence 0.95,
exactly the confidence emitted without any Node indicator — not a lower
one as the claim states. -/
theorem javaRule_coOccurrence_counterexample :
    ((rawRules { Features.empty with
        detectedFiles := some ["pom.xml", "package.json"] }).find?
      (fun c => c.label == "java")).map (fun c => c.confidence)
      = some (mkRat 95 100) ∧
    ((rawRules { Features.empty with
        detectedFiles := some ["pom.xml"] }).find?
      (fun c => c.label == "java")).map (fun c => c.confidence)
      = some (mkRat 95 100) ∧
    ¬ (mkRat 95 100 < mkRat 95 100) := by
  refine ⟨by decide, by decide, by decide⟩

/-- C6 witness: the java rule fires at 0.95 on a repository that also
carries package.json. -/
theorem javaRule_confidence_fixed_witness :
    (listHas (detFilesRD { Features.empty with
        detectedFiles := some ["pom.xml", "package.json"] }) "pom.xml" = true ∨
      listHas (detFilesRD { Features.empty with
        detectedFiles := some ["pom.xml", "package.json"] }) "build.gradle" = true ∨
      listHas (detFilesRD { Features.empty with
        detectedFiles := some ["pom.xml", "package.json"] }) "build.gradle.kts" = true) ∧
    (⟨"java", mkRat 95 100, "Java build descriptor"⟩ : Candidate) ∈
      rawRules { Features.empty with
        detectedFiles := some ["pom.xml", "package.json"] } :=
  ⟨Or.inl (by decide),
    javaRule_confidence_fixed { Features.empty with
      detectedFiles := some ["pom.xml", "package.json"] } (Or.inl (by decide))⟩

-- ### Sorting lemmas for the merger (C1/C4/C5 support)

theorem sortByConfDesc_perm (cs : List Candidate) : (sortByConfDesc cs).Perm cs :=
  List.perm_insertionSort confGE cs

theorem sortByConfDesc_sorted (cs : List Candidate) :
    (sortByConfDesc cs).Pairwise confGE :=
  List.sorted_insertionSort confGE cs

theorem mem_sortByConfDesc {cs : List Candidate} {c : Candidate} :
    c ∈ sortByConfDesc cs ↔ c ∈ cs :=
  (sortByConfDesc_perm cs).mem_iff

theorem sortByConfDesc_ne_nil {cs : List Candidate} (h : cs ≠ []) :
    sortByConfDesc cs ≠ [] := by
  intro he
  exact h ((he ▸ sortByConfDesc_perm cs).symm.eq_nil)

theorem headI_confidence_max (cs : List Candidate) (c : Candidate) (hc : c ∈ cs) :
    c.confidence ≤ (sortByConfDesc cs).headI.confidence := by
  have hmem : c ∈ sortByConfDesc cs := mem_sortByConfDesc.mpr hc
  have hsorted := sortByConfDesc_sorted cs
  cases hs : sortByConfDesc cs with
  | nil => rw [hs] at hmem; exact absurd hmem (List.not_mem_nil c)
  | cons a t =>
    rw [hs] at hmem hsorted
    rcases List.mem_cons.mp hmem with rfl | hmem'
    · simp [List.headI]
    · have := (List.pairwise_cons.mp hsorted).1 c hmem'
      simpa [List.headI, confGE] using this

/-- C1: for every candidate list whose maximum confidence is at least
0.97 and every classifier result (including one ranking a different
label first), the merged list is exactly the rule candidates (in
descending confidence order) each carried through with combinedScore
equal to its rule confidence and classifierScore 0 — so every candidate
is carried through and nothing else appears — and `chooseTemplates` on
the merged list returns exactly the singleton list of the top rule
candidate's label. -/
theorem mergeRuleAndHF_ruleDominant (cands : List Candidate) (hfResult : HFResult)
    (thr : Rat) (hne : cands ≠ [])
    (hmax : ∃ c ∈ cands, mkRat 97 100 ≤ c.confidence) :
    ((mergeRuleAndHF cands hfResult).merged
      = (sortByConfDesc cands).map (fun c =>
          ⟨c.label, c.confidence, 0, c.confidence, ["rule-dominant"]⟩)) ∧
    (∀ c ∈ cands,
      (⟨c.label, c.confidence, 0, c.confidence, ["rule-dominant"]⟩ : Merged)
        ∈ (mergeRuleAndHF cands hfResult).merged) ∧
    (∀ e ∈ (mergeRuleAndHF cands hfResult).merged,
      ∃ c ∈ cands,
        e = ⟨c.label, c.confidence, 0, c.confidence, ["rule-dominant"]⟩) ∧
    chooseTemplates (mergeRuleAndHF cands hfResult).merged thr
      = [(sortByConfDesc cands).headI.label] := by
  obtain ⟨c0, hc0, hconf⟩ := hmax
  have htop : mkRat 97 100 ≤ (sortByConfDesc cands).headI.confidence :=
    le_trans hconf (headI_confidence_max cands c0 hc0)
  have hmerge : mergeRuleAndHF cands hfResult
      = ⟨(sortByConfDesc cands).map (fun c =>
          ⟨c.label, c.confidence, 0, c.confidence, ["rule-dominant"]⟩)⟩ := by
    unfold mergeRuleAndHF
    dsimp only
    rw [if_neg (by simp [List.isEmpty_eq_false, hne]), if_pos htop]
  refine ⟨by rw [hmerge], ?_, ?_, ?_⟩
  · intro c hc
    rw [hmerge]
    exact List.mem_map_of_mem _ (mem_sortByConfDesc.mpr hc)
  · intro e he
    rw [hmerge] at he
    obtain ⟨c, hcmem, rfl⟩ := List.mem_map.mp he
    exact ⟨c, mem_sortByConfDesc.mp hcmem, rfl⟩
  · obtain ⟨a, t, hat⟩ := List.exists_cons_of_ne_nil (sortByConfDesc_ne_nil hne)
    rw [hmerge, hat]
    simp [chooseTemplates, List.headI]

/-- C1 witness: a 0.99-confidence node candidate dominates even when the
classifier ranks java first, and the weaker java candidate is still
carried through at its own rule confidence. -/
theorem mergeRuleAndHF_ruleDominant_witness :
    ([⟨"node", mkRat 99 100, "package.json present"⟩,
      ⟨"java", mkRat 5 10, "dominant hint"⟩] : List Candidate) ≠ [] ∧
    (∃ c ∈ ([⟨"node", mkRat 99 100, "package.json present"⟩,
      ⟨"java", mkRat 5 10, "dominant hint"⟩] : List Candidate),
      mkRat 97 100 ≤ c.confidence) ∧
    (⟨"java", mkRat 5 10, 0, mkRat 5 10, ["rule-dominant"]⟩ : Merged)
      ∈ (mergeRuleAndHF
        [⟨"node", mkRat 99 100, "package.json present"⟩,
         ⟨"java", mkRat 5 10, "dominant hint"⟩]
        ⟨["java", "node"], [mkRat 99 100, mkRat 1 100]⟩).merged ∧
    chooseTemplates (mergeRuleAndHF
      [⟨"node", mkRat 99 100, "package.json present"⟩,
       ⟨"java", mkRat 5 10, "dominant hint"⟩]
      ⟨["java", "node"], [mkRat 99 100, mkRat 1 100]⟩).merged (mkRat 5 10)
      = ["node"] := by
  refine ⟨by decide,
    ⟨⟨"node", mkRat 99 100, "package.json present"⟩, by decide, by decide⟩, ?_, ?_⟩
  · exact (mergeRuleAndHF_ruleDominant
      [⟨"node", mkRat 99 100, "package.json present"⟩,
       ⟨"java", mkRat 5 10, "dominant hint"⟩]
      ⟨["java", "node"], [mkRat 99 100, mkRat 1 100]⟩ (mkRat 5 10) (by decide)
      ⟨⟨"node", mkRat 99 100, "package.json present"⟩, by decide, by decide⟩).2.1
      ⟨"java", mkRat 5 10, "dominant hint"⟩ (by decide)
  · have h := (mergeRuleAndHF_ruleDominant
      [⟨"node", mkRat 99 100, "package.json present"⟩,
       ⟨"java", mkRat 5 10, "dominant hint"⟩]
      ⟨["java", "node"], [mkRat 99 100, mkRat 1 100]⟩ (mkRat 5 10) (by decide)
      ⟨⟨"node", mkRat 99 100, "package.json present"⟩, by decide, by decide⟩).2.2.2
    rw [h]
    decide

-- ### Score-range lemmas for the merger (C4 support)

theorem ratMapSet_snd (m : List (String × Rat)) (k : String) (v : Rat)
    (p : String × Rat) (hp : p ∈ ratMapSet m k v) : p.2 = v ∨ p ∈ m := by
  unfold ratMapSet at hp
  split at hp
  · obtain ⟨q, hq, hpq⟩ := List.mem_map.mp hp
    by_cases hqk : (q.1 == k) = true
    · rw [if_pos hqk] at hpq
      left; rw [← hpq]
    · rw [if_neg hqk] at hpq
      right; rw [← hpq]; exact hq
  · rcases List.mem_append.mp hp with h | h
    · right; exact h
    · left; rw [List.mem_singleton.mp h]

theorem getD_zero_or_mem (scores : List Rat) (i : Nat) :
    scores.getD i 0 = 0 ∨ scores.getD i 0 ∈ scores := by
  cases h : scores[i]? with
  | none => left; simp [List.getD, h]
  | some s =>
    right
    have hv : scores.getD i 0 = s := by simp [List.getD, h]
    have hg : scores.get? i = some s := by rw [List.get?_eq_getElem?, h]
    rw [hv]
    exact List.get?_mem hg

theorem buildHfMap_snd (labels : List String) (scores : List Rat)
    (p : String × Rat) (hp : p ∈ buildHfMap labels scores) :
    p.2 = 0 ∨ p.2 ∈ scores := by
  unfold buildHfMap at hp
  suffices haux : ∀ (l : List (Nat × String)) (acc : List (String × Rat)),
      (∀ q ∈ acc, q.2 = 0 ∨ q.2 ∈ scores) →
      ∀ q ∈ l.foldl (fun m r => ratMapSet m r.2 (scores.getD r.1 0)) acc,
        q.2 = 0 ∨ q.2 ∈ scores by
    exact haux labels.enum [] (by intro q hq; exact absurd hq (List.not_mem_nil q)) p hp
  intro l
  induction l with
  | nil => intro acc hacc q hq; exact hacc q hq
  | cons r rest ih =>
    intro acc hacc q hq
    refine ih (ratMapSet acc r.2 (scores.getD r.1 0)) ?_ q hq
    intro q' hq'
    rcases ratMapSet_snd acc r.2 (scores.getD r.1 0) q' hq' with h | h
    · rw [h]; exact getD_zero_or_mem scores r.1
    · exact hacc q' h

/-- C4: every MergedCandidate's combinedScore is a convex combination of
its ruleScore and classifierScore (weights summing to 1), and lies in
[0, 1] whenever all rule confidences and classifier scores do. -/
theorem mergeRuleAndHF_convex (cands : List Candidate) (hfResult : HFResult)
    (hc : ∀ c ∈ cands, 0 ≤ c.confidence ∧ c.confidence ≤ 1)
    (hs : ∀ s ∈ hfResult.scores, 0 ≤ s ∧ s ≤ 1) :
    ∀ e ∈ (mergeRuleAndHF cands hfResult).merged,
      (∃ w : Rat, 0 ≤ w ∧ w ≤ 1 ∧ e.combined = e.rule * w + e.hf * (1 - w)) ∧
      0 ≤ e.combined ∧ e.combined ≤ 1 := by
  intro e he
  unfold mergeRuleAndHF at he
  dsimp only at he
  split at he
  · exact absurd he (by simp)
  · split at he
    · obtain ⟨c, hcmem, rfl⟩ := List.mem_map.mp he
      have hcin : c ∈ cands := mem_sortByConfDesc.mp hcmem
      have hb := hc c hcin
      refine ⟨⟨1, by norm_num, by norm_num, by ring⟩, hb.1, hb.2⟩
    · obtain ⟨label, _, rfl⟩ :=
        List.mem_map.mp ((List.perm_insertionSort combinedGE _).mem_iff.mp he)
      have hrule : 0 ≤ (((cands.find? (fun c => c.label == label)).map
          (fun c => c.confidence)).getD 0) ∧
          (((cands.find? (fun c => c.label == label)).map
          (fun c => c.confidence)).getD 0) ≤ 1 := by
        cases hfd : cands.find? (fun c => c.label == label) with
        | none => simp
        | some c =>
          have := hc c (List.mem_of_find?_eq_some hfd)
          simpa using this
      have hhf : 0 ≤ (((buildHfMap hfResult.labels hfResult.scores).find?
          (fun p => p.1 == label)).map (fun p => p.2)).getD 0 ∧
          (((buildHfMap hfResult.labels hfResult.scores).find?
          (fun p => p.1 == label)).map (fun p => p.2)).getD 0 ≤ 1 := by
        cases hfd : (buildHfMap hfResult.labels hfResult.scores).find?
            (fun p => p.1 == label) with
        | none => simp
        | some p =>
          rcases buildHfMap_snd hfResult.labels hfResult.scores p
              (List.mem_of_find?_eq_some hfd) with h | h
          · simp [h]
          · simpa using hs p.2 h
      dsimp only
      set r := (((cands.find? (fun c => c.label == label)).map
        (fun c => c.confidence)).getD 0) with hr
      set q := (((buildHfMap hfResult.labels hfResult.scores).find?
        (fun p => p.1 == label)).map (fun p => p.2)).getD 0 with hq
      have h8 : mkRat 8 10 = (4 : ℚ) / 5 := by norm_num [Rat.mkRat_eq_div]
      have h2 : mkRat 2 10 = (1 : ℚ) / 5 := by norm_num [Rat.mkRat_eq_div]
      refine ⟨⟨mkRat 8 10, by decide, by decide, by rw [h8, h2]; ring⟩, ?_, ?_⟩
      · rw [h8, h2]
        have := mul_nonneg hrule.1 (by norm_num : (0:ℚ) ≤ 4/5)
        have := mul_nonneg hhf.1 (by norm_num : (0:ℚ) ≤ 1/5)
        rw [h8, h2] at *
        nlinarith [hrule.1, hhf.1]
      · rw [h8, h2]
        nlinarith [hrule.2, hhf.2, hrule.1, hhf.1]

/-- C4 witness: concrete in-range inputs give an in-range convex
combination. -/
theorem mergeRuleAndHF_convex_witness :
    (∀ c ∈ ([⟨"node", mkRat 95 100, "package.json present"⟩,
        ⟨"java", mkRat 5 10, "hint"⟩] : List Candidate),
      0 ≤ c.confidence ∧ c.confidence ≤ 1) ∧
    (∀ s ∈ ([mkRat 9 10] : List Rat), 0 ≤ s ∧ s ≤ 1) ∧
    ∀ e ∈ (mergeRuleAndHF
        [⟨"node", mkRat 95 100, "package.json present"⟩,
         ⟨"java", mkRat 5 10, "hint"⟩] ⟨["java"], [mkRat 9 10]⟩).merged,
      (∃ w : Rat, 0 ≤ w ∧ w ≤ 1 ∧ e.combined = e.rule * w + e.hf * (1 - w)) ∧
      0 ≤ e.combined ∧ e.combined ≤ 1 :=
  ⟨by decide, by decide,
    mergeRuleAndHF_convex
      [⟨"node", mkRat 95 100, "package.json present"⟩,
       ⟨"java", mkRat 5 10, "hint"⟩] ⟨["java"], [mkRat 9 10]⟩
      (by decide) (by decide)⟩

-- ### Deduplication invariants of the rule detector (C5/C9 support)

theorem label_unique (acc : List Candidate)
    (hpw : acc.Pairwise (fun a b => a.label ≠ b.label))
    {e1 e2 : Candidate} (h1 : e1 ∈ acc) (h2 : e2 ∈ acc)
    (hl : e1.label = e2.label) : e1 = e2 := by
  induction acc with
  | nil => exact absurd h1 (List.not_mem_nil e1)
  | cons a t ih =>
    obtain ⟨hhead, htail⟩ := List.pairwise_cons.mp hpw
    rcases List.mem_cons.mp h1 with rfl | h1'
    · rcases List.mem_cons.mp h2 with rfl | h2'
      · rfl
      · exact absurd hl (hhead e2 h2')
    · rcases List.mem_cons.mp h2 with rfl | h2'
      · exact absurd hl.symm (hhead e1 h1')
      · exact ih htail h1' h2'

/-- Invariant of the dedup fold: distinct labels, every kept entry is a
seen emission dominating all seen emissions of its label, and every seen
label is covered. -/
def DedupInv (seen acc : List Candidate) : Prop :=
  acc.Pairwise (fun a b => a.label ≠ b.label) ∧
  (∀ e ∈ acc, e ∈ seen ∧
    ∀ c ∈ seen, c.label = e.label → c.confidence ≤ e.confidence) ∧
  (∀ c ∈ seen, ∃ e ∈ acc, e.label = c.label)

theorem mapSet_inv (seen acc : List Candidate) (c : Candidate)
    (h : DedupInv seen acc) : DedupInv (seen ++ [c]) (mapSet acc c) := by
  obtain ⟨hpw, hmax, hcov⟩ := h
  cases hfd : acc.find? (fun e => e.label == c.label) with
  | none =>
    have hms : mapSet acc c = acc ++ [c] := by
      unfold mapSet; rw [hfd]
    rw [hms]
    have hnot : ∀ e ∈ acc, e.label ≠ c.label := by
      intro e he
      have := List.find?_eq_none.mp hfd e he
      simpa using this
    refine ⟨?_, ?_, ?_⟩
    · rw [List.pairwise_append]
      refine ⟨hpw, List.pairwise_singleton _ _, ?_⟩
      intro a ha b hb
      rw [List.mem_singleton.mp hb]
      exact hnot a ha
    · intro e he
      rcases List.mem_append.mp he with he' | he'
      · obtain ⟨hseen, hbound⟩ := hmax e he'
        refine ⟨List.mem_append_left _ hseen, ?_⟩
        intro x hx hxl
        rcases List.mem_append.mp hx with hx' | hx'
        · exact hbound x hx' hxl
        · rw [List.mem_singleton.mp hx'] at hxl
          exact absurd hxl.symm (hnot e he')
      · rw [List.mem_singleton.mp he']
        refine ⟨List.mem_append_right _ (List.mem_singleton.mpr rfl), ?_⟩
        intro x hx hxl
        rcases List.mem_append.mp hx with hx' | hx'
        · obtain ⟨e', he', hel⟩ := hcov x hx'
          exact absurd (hel.trans hxl) (hnot e' he')
        · rw [List.mem_singleton.mp hx']
    · intro x hx
      rcases List.mem_append.mp hx with hx' | hx'
      · obtain ⟨e, he, hel⟩ := hcov x hx'
        exact ⟨e, List.mem_append_left _ he, hel⟩
      · rw [List.mem_singleton.mp hx']
        exact ⟨c, List.mem_append_right _ (List.mem_singleton.mpr rfl), rfl⟩
  | some e0 =>
    have he0mem : e0 ∈ acc := List.mem_of_find?_eq_some hfd
    have he0lab : e0.label = c.label := by simpa using List.find?_some hfd
    have huniq : ∀ x ∈ acc, x.label = c.label → x = e0 := by
      intro x hx hxl
      exact label_unique acc hpw hx he0mem (hxl.trans he0lab.symm)
    by_cases hlt : e0.confidence < c.confidence
    · have hms : mapSet acc c
          = acc.map (fun e2 => if e2.label == c.label then c else e2) := by
        unfold mapSet; rw [hfd]; exact if_pos hlt
      rw [hms]
      have hφlab : ∀ x : Candidate,
          ((if x.label == c.label then c else x) : Candidate).label = x.label := by
        intro x
        by_cases hx : (x.label == c.label) = true
        · rw [if_pos hx]
          exact (beq_iff_eq.mp hx).symm
        · rw [if_neg hx]
      refine ⟨?_, ?_, ?_⟩
      · rw [List.pairwise_map]
        exact hpw.imp (fun hab => by rw [hφlab, hφlab]; exact hab)
      · intro y hy
        obtain ⟨x, hxmem, hxy⟩ := List.mem_map.mp hy
        by_cases hx : (x.label == c.label) = true
        · rw [if_pos hx] at hxy
          subst hxy
          refine ⟨List.mem_append_right _ (List.mem_singleton.mpr rfl), ?_⟩
          intro z hz hzl
          rcases List.mem_append.mp hz with hz' | hz'
          · have hze0 : z.label = e0.label := by
              rw [hzl, he0lab]
            exact le_trans ((hmax e0 he0mem).2 z hz' hze0) hlt.le
          · rw [List.mem_singleton.mp hz']
        · rw [if_neg hx] at hxy
          subst hxy
          obtain ⟨hseen, hbound⟩ := hmax x hxmem
          refine ⟨List.mem_append_left _ hseen, ?_⟩
          intro z hz hzl
          rcases List.mem_append.mp hz with hz' | hz'
          · exact hbound z hz' hzl
          · rw [List.mem_singleton.mp hz'] at hzl
            exact absurd hzl.symm (fun he => hx (beq_iff_eq.mpr he))
      · intro z hz
        rcases List.mem_append.mp hz with hz' | hz'
        · obtain ⟨e, he, hel⟩ := hcov z hz'
          refine ⟨(if e.label == c.label then c else e),
            List.mem_map_of_mem _ he, ?_⟩
          rw [hφlab e]
          exact hel
        · rw [List.mem_singleton.mp hz']
          refine ⟨(if e0.label == c.label then c else e0),
            List.mem_map_of_mem _ he0mem, ?_⟩
          rw [if_pos (by simpa using he0lab)]
    · have hms : mapSet acc c = acc := by
        unfold mapSet; rw [hfd]; exact if_neg hlt
      rw [hms]
      refine ⟨hpw, ?_, ?_⟩
      · intro e he
        obtain ⟨hseen, hbound⟩ := hmax e he
        refine ⟨List.mem_append_left _ hseen, ?_⟩
        intro z hz hzl
        rcases List.mem_append.mp hz with hz' | hz'
        · exact hbound z hz' hzl
        · have hz'' : z = c := List.mem_singleton.mp hz'
          subst hz''
          have he0' : e = e0 := huniq e he hzl.symm
          subst he0'
          exact le_of_not_lt hlt
      · intro z hz
        rcases List.mem_append.mp hz with hz' | hz'
        · obtain ⟨e, he, hel⟩ := hcov z hz'
          exact ⟨e, he, hel⟩
        · rw [List.mem_singleton.mp hz']
          exact ⟨e0, he0mem, he0lab⟩

theorem foldl_mapSet_inv (rest : List Candidate) (seen acc : List Candidate)
    (h : DedupInv seen acc) :
    DedupInv (seen ++ rest) (rest.foldl mapSet acc) := by
  induction rest generalizing seen acc with
  | nil => simpa using h
  | cons c rest ih =>
    have step := ih (seen ++ [c]) (mapSet acc c) (mapSet_inv seen acc c h)
    rw [List.append_assoc] at step
    simpa using step

theorem dedupByLabel_inv (raw : List Candidate) :
    DedupInv raw (dedupByLabel raw) := by
  have h0 : DedupInv [] [] :=
    ⟨List.Pairwise.nil,
     fun e he => absurd he (List.not_mem_nil e),
     fun c hc => absurd hc (List.not_mem_nil c)⟩
  have := foldl_mapSet_inv raw [] [] h0
  simpa using this

theorem runRuleDetector_candidates (f : Features) :
    (runRuleDetector f).candidates = sortByConfDesc (dedupByLabel (rawAll f)) := by
  unfold runRuleDetector
  dsimp only

/-- C5: the candidate list of the rule detector never contains two
entries with the same label; each surviving entry is one of the raw
emissions and carries the maximum confidence over all raw emissions of
its label (every raw label survives); and the list is sorted in
descending order of confidence. -/
theorem runRuleDetector_dedup_max_sorted (f : Features) :
    ((runRuleDetector f).candidates.Pairwise (fun a b => a.label ≠ b.label)) ∧
    (∀ e ∈ (runRuleDetector f).candidates,
      e ∈ rawAll f ∧
        ∀ c ∈ rawAll f, c.label = e.label → c.confidence ≤ e.confidence) ∧
    (∀ c ∈ rawAll f, ∃ e ∈ (runRuleDetector f).candidates, e.label = c.label) ∧
    ((runRuleDetector f).candidates.Pairwise
      (fun a b => b.confidence ≤ a.confidence)) := by
  obtain ⟨hpw, hmax, hcov⟩ := dedupByLabel_inv (rawAll f)
  have hcand := runRuleDetector_candidates f
  refine ⟨?_, ?_, ?_, ?_⟩
  · rw [hcand]
    exact ((sortByConfDesc_perm _).pairwise_iff
      (fun {a b} h => Ne.symm h)).mpr hpw
  · intro e he
    exact hmax e (mem_sortByConfDesc.mp (hcand ▸ he))
  · intro c hc
    obtain ⟨e, he, hel⟩ := hcov c hc
    exact ⟨e, hcand ▸ mem_sortByConfDesc.mpr he, hel⟩
  · rw [hcand]
    exact sortByConfDesc_sorted (dedupByLabel (rawAll f))

/-- C5 witness: with package.json detected and a JavaScript-dominant
composition the detector emits "node" twice (0.95 and 0.6) and keeps a
single node entry at 0.95. -/
theorem runRuleDetector_dedup_max_sorted_witness :
    ((runRuleDetector { Features.empty with
        detectedFiles := some ["package.json"],
        dominant_language := some "JavaScript" }).candidates.Pairwise
      (fun a b => a.label ≠ b.label)) ∧
    (∀ e ∈ (runRuleDetector { Features.empty with
        detectedFiles := some ["package.json"],
        dominant_language := some "JavaScript" }).candidates,
      e ∈ rawAll { Features.empty with
        detectedFiles := some ["package.json"],
        dominant_language := some "JavaScript" } ∧
        ∀ c ∈ rawAll { Features.empty with
          detectedFiles := some ["package.json"],
          dominant_language := some "JavaScript" },
          c.label = e.label → c.confidence ≤ e.confidence) ∧
    (∀ c ∈ rawAll { Features.empty with
        detectedFiles := some ["package.json"],
        dominant_language := some "JavaScript" },
      ∃ e ∈ (runRuleDetector { Features.empty with
        detectedFiles := some ["package.json"],
        dominant_language := some "JavaScript" }).candidates,
        e.label = c.label) ∧
    ((runRuleDetector { Features.empty with
        detectedFiles := some ["package.json"],
        dominant_language := some "JavaScript" }).candidates.Pairwise
      (fun a b => b.confidence ≤ a.confidence)) :=
  runRuleDetector_dedup_max_sorted { Features.empty with
    detectedFiles := some ["package.json"],
    dominant_language := some "JavaScript" }

/-- C9: for every input document — including the empty one — the rule
detector returns a non-empty candidate list, and when no rule fires the
list is exactly the single generic candidate at confidence 0.3. -/
theorem runRuleDetector_nonempty_generic (f : Features) :
    (runRuleDetector f).candidates ≠ [] ∧
    (rawRules f = [] →
      (runRuleDetector f).candidates
        = [⟨"generic", mkRat 3 10, "no strong evidence"⟩]) := by
  constructor
  · intro he
    have hraw : rawAll f ≠ [] := by
      unfold rawAll
      dsimp only
      split
      · simp
      · next h => exact List.isEmpty_eq_false.mp (Bool.not_eq_true _ ▸ (by simpa using h))
    obtain ⟨c0, hc0⟩ := List.exists_mem_of_ne_nil (rawAll f) hraw
    obtain ⟨e, he', _⟩ := (dedupByLabel_inv (rawAll f)).2.2 c0 hc0
    have hmem : e ∈ (runRuleDetector f).candidates := by
      rw [runRuleDetector_candidates f]
      exact mem_sortByConfDesc.mpr he'
    rw [he] at hmem
    exact absurd hmem (List.not_mem_nil e)
  · intro hempty
    have hone : rawAll f = [⟨"generic", mkRat 3 10, "no strong evidence"⟩] := by
      unfold rawAll
      rw [hempty]
      rfl
    rw [runRuleDetector_candidates f, hone]
    rfl

/-- C9 witness: the empty features document fires no rule and yields
exactly the generic candidate. -/
theorem runRuleDetector_nonempty_generic_witness :
    rawRules Features.empty = [] ∧
    (runRuleDetector Features.empty).candidates
      = [⟨"generic", mkRat 3 10, "no strong evidence"⟩] :=
  ⟨by decide,
    (runRuleDetector_nonempty_generic Features.empty).2 (by decide)⟩

/-- C7: on a failed external zero-shot call (timeout, auth error,
malformed response — modelled as any error outcome), `classifyZeroShot`
does not propagate the error: on a cache miss with a configured token it
returns the heuristic fallback result, whose labels and scores are
parallel lists, whose model tag is "heuristic-fallback", and whose
diagnostic payload records the failure reason. -/
theorem classifyZeroShot_failure_fallback (summaryText : String)
    (candidateLabels : List String) (model err : String) :
    classifyZeroShot summaryText candidateLabels model none true
        (Except.error err)
      = heuristicLabels (effectiveSummary summaryText) candidateLabels
          (some err) ∧
    (classifyZeroShot summaryText candidateLabels model none true
        (Except.error err)).labels.length
      = (classifyZeroShot summaryText candidateLabels model none true
        (Except.error err)).scores.length ∧
    (classifyZeroShot summaryText candidateLabels model none true
        (Except.error err)).raw = RawDiag.errorTag err ∧
    (classifyZeroShot summaryText candidateLabels model none true
        (Except.error err)).model = "heuristic-fallback" := by
  refine ⟨rfl, ?_, rfl, rfl⟩
  show (heuristicLabels (effectiveSummary summaryText) candidateLabels
      (some err)).labels.length
    = (heuristicLabels (effectiveSummary summaryText) candidateLabels
      (some err)).scores.length
  simp [heuristicLabels]

/-- C10: an empty summary or one shorter than 10 characters after
trimming is replaced by the fixed placeholder before the cache key is
computed and before classification, so both the cache key and the whole
result coincide with those of the placeholder input. -/
theorem classifyZeroShot_shortSummary_placeholder (summaryText : String)
    (h : summaryText = "" ∨ (trimStr summaryText).length < 10)
    (candidateLabels : List String) (model : String)
    (cached : Option ClassifierResult) (hfConfigured : Bool)
    (callResult : Except String ZSData) :
    effectiveSummary summaryText = PLACEHOLDER ∧
    cacheKeyOf summaryText candidateLabels model
      = cacheKeyOf PLACEHOLDER candidateLabels model ∧
    classifyZeroShot summaryText candidateLabels model cached hfConfigured
        callResult
      = classifyZeroShot PLACEHOLDER candidateLabels model cached hfConfigured
          callResult := by
  have heff : effectiveSummary summaryText = PLACEHOLDER := by
    unfold effectiveSummary
    rw [if_pos h]
  have hph : effectiveSummary PLACEHOLDER = PLACEHOLDER := by decide
  refine ⟨heff, ?_, ?_⟩
  · unfold cacheKeyOf
    rw [heff, hph]
  · unfold classifyZeroShot
    rw [heff, hph]

/-- C10 witness: the five-character summary "short" is classified and
cached exactly as the placeholder. -/
theorem classifyZeroShot_shortSummary_placeholder_witness :
    ("short" = "" ∨ (trimStr "short").length < 10) ∧
    (effectiveSummary "short" = PLACEHOLDER ∧
      cacheKeyOf "short" ["node"] "facebook/bart-large-mnli"
        = cacheKeyOf PLACEHOLDER ["node"] "facebook/bart-large-mnli" ∧
      classifyZeroShot "short" ["node"] "facebook/bart-large-mnli" none false
          (Except.ok ZSData.other)
        = classifyZeroShot PLACEHOLDER ["node"] "facebook/bart-large-mnli"
            none false (Except.ok ZSData.other)) :=
  ⟨Or.inr (by decide),
    classifyZeroShot_shortSummary_placeholder "short" (Or.inr (by decide))
      ["node"] "facebook/bart-large-mnli" none false (Except.ok ZSData.other)⟩
